import Mathlib

/-!
Shallow embedding of the reading-digest pipeline (reading_digest.py) and
proofs about it.  Python machine values are modelled as follows: Python
ints are Lean Int (or Nat where the source value is a length), Python
float division and the float warning threshold are modelled exactly with
the rationals, Python strings are modelled as List Char for the text the
extractor indexes into and as String for opaque messages, a Python call
that can raise an exception returns an Option whose none is the raised
exception.  The tiktoken encoder and datetime.now are external
collaborators and enter as parameters.  hashlib.md5 is the standard MD5
algorithm, embedded in full below.
-/

/-! ### TokenMonitor (reading_digest.py lines 41 to 74) -/

/-- State of the class TokenMonitor: the fields max_budget,
warning_threshold and tokens_used.  The constructor default is
max_budget 50000, warning_threshold 0.8, tokens_used 0.  The tiktoken
encoder field is external and is passed separately to estimate_tokens. -/
structure TokenMonitor where
  max_budget : Int
  warning_threshold : ℚ
  tokens_used : Int
deriving DecidableEq, Repr

/-- One-decimal rendering of a rational, approximating the Python
format spec .1f (the exact float rounding of Python is immaterial to
every claim below, which only inspect message emptiness). -/
def fmtOneDecimal (q : ℚ) : String :=
  let n : Int := round (q * 10)
  toString (n / 10) ++ "." ++ toString (n % 10)

/-- The budget-exceeded message built on line 66 of the source. -/
def exceededMsg (used budget : Int) : String :=
  "⛔ BUDGET EXCEEDED: " ++ toString used ++ "/" ++ toString budget ++
    " tokens used. Task stopped."

/-- The warning message built on line 68 of the source. -/
def warningMsg (p : ℚ) (used budget : Int) : String :=
  "⚠️ WARNING: " ++ fmtOneDecimal (p * 100) ++ "% of token budget used (" ++
    toString used ++ "/" ++ toString budget ++ ")"

/-- TokenMonitor.add_usage: the usage is incremented first, then
percentage = tokens_used / max_budget is computed; with max_budget 0 the
Python division raises ZeroDivisionError, modelled by a none result
(the increment has already happened on the object). -/
def TokenMonitor.add_usage (m : TokenMonitor) (tokens : Int) :
    TokenMonitor × Option (Bool × String) :=
  let m2 : TokenMonitor := { m with tokens_used := m.tokens_used + tokens }
  (m2,
    if m.max_budget = 0 then none
    else
      let percentage : ℚ := (m2.tokens_used : ℚ) / (m.max_budget : ℚ)
      if 1 ≤ percentage then
        some (false, exceededMsg m2.tokens_used m.max_budget)
      else if m.warning_threshold ≤ percentage then
        some (true, warningMsg percentage m2.tokens_used m.max_budget)
      else some (true, ""))

/-- TokenMonitor.get_status (side-effect free).  The Lean rational
division returns 0 at budget 0 where Python would raise; no theorem
below touches that point. -/
def TokenMonitor.get_status (m : TokenMonitor) : String :=
  let p : ℚ := (m.tokens_used : ℚ) / (m.max_budget : ℚ) * 100
  "📊 Token Usage: " ++ toString m.tokens_used ++ "/" ++ toString m.max_budget ++
    " (" ++ fmtOneDecimal p ++ "%)"

/-- TokenMonitor.estimate_tokens: the external tiktoken encoder, when
present, supplies the token count of a text; otherwise the fallback is
floor division of the character length by 2. -/
def estimate_tokens (encoder : Option (List Char → Nat)) (text : List Char) : Nat :=
  match encoder with
  | some f => f text
  | none => text.length / 2

/-- A sequence of add_usage calls, keeping only the evolving monitor
state (the returned flags and messages are dropped). -/
def runUsages (m : TokenMonitor) (costs : List Int) : TokenMonitor :=
  costs.foldl (fun s c => (s.add_usage c).1) m

/-! ### MD5 (the hashlib.md5 call on line 182 of the source)

Full embedding of the MD5 algorithm of RFC 1321 over lists of bytes
(naturals below 256), with 32-bit words as naturals reduced mod 2 ^ 32. -/

/-- The 64 round constants of MD5. -/
def md5K : List Nat :=
  [0xd76aa478, 0xe8c7b756, 0x242070db, 0xc1bdceee,
   0xf57c0faf, 0x4787c62a, 0xa8304613, 0xfd469501,
   0x698098d8, 0x8b44f7af, 0xffff5bb1, 0x895cd7be,
   0x6b901122, 0xfd987193, 0xa679438e, 0x49b40821,
   0xf61e2562, 0xc040b340, 0x265e5a51, 0xe9b6c7aa,
   0xd62f105d, 0x02441453, 0xd8a1e681, 0xe7d3fbc8,
   0x21e1cde6, 0xc33707d6, 0xf4d50d87, 0x455a14ed,
   0xa9e3e905, 0xfcefa3f8, 0x676f02d9, 0x8d2a4c8a,
   0xfffa3942, 0x8771f681, 0x6d9d6122, 0xfde5380c,
   0xa4beea44, 0x4bdecfa9, 0xf6bb4b60, 0xbebfbc70,
   0x289b7ec6, 0xeaa127fa, 0xd4ef3085, 0x04881d05,
   0xd9d4d039, 0xe6db99e5, 0x1fa27cf8, 0xc4ac5665,
   0xf4292244, 0x432aff97, 0xab9423a7, 0xfc93a039,
   0x655b59c3, 0x8f0ccc92, 0xffeff47d, 0x85845dd1,
   0x6fa87e4f, 0xfe2ce6e0, 0xa3014314, 0x4e0811a1,
   0xf7537e82, 0xbd3af235, 0x2ad7d2bb, 0xeb86d391]

/-- The 64 per-round left-rotation amounts of MD5. -/
def md5S : List Nat :=
  [7, 12, 17, 22, 7, 12, 17, 22, 7, 12, 17, 22, 7, 12, 17, 22,
   5, 9, 14, 20, 5, 9, 14, 20, 5, 9, 14, 20, 5, 9, 14, 20,
   4, 11, 16, 23, 4, 11, 16, 23, 4, 11, 16, 23, 4, 11, 16, 23,
   6, 10, 15, 21, 6, 10, 15, 21, 6, 10, 15, 21, 6, 10, 15, 21]

/-- Left rotation of a 32-bit word (a natural below 2 ^ 32). -/
def rotl32 (x n : Nat) : Nat :=
  ((x <<< n) % 4294967296) ||| (x >>> (32 - n))

/-- The i-th little-endian 32-bit word of a byte list. -/
def leWord (bytes : List Nat) (i : Nat) : Nat :=
  bytes.getD (4 * i) 0 + 256 * bytes.getD (4 * i + 1) 0 +
    65536 * bytes.getD (4 * i + 2) 0 + 16777216 * bytes.getD (4 * i + 3) 0

/-- Running digest state of MD5. -/
structure MD5State where
  a : Nat
  b : Nat
  c : Nat
  d : Nat
deriving DecidableEq, Repr

/-- One of the 64 MD5 rounds on one 64-byte chunk. -/
def md5Round (chunk : List Nat) (st : MD5State) (i : Nat) : MD5State :=
  let fg : Nat × Nat :=
    if i < 16 then ((st.b &&& st.c) ||| ((4294967295 - st.b) &&& st.d), i)
    else if i < 32 then ((st.d &&& st.b) ||| ((4294967295 - st.d) &&& st.c), (5 * i + 1) % 16)
    else if i < 48 then (st.b ^^^ st.c ^^^ st.d, (3 * i + 5) % 16)
    else (st.c ^^^ (st.b ||| (4294967295 - st.d)), (7 * i) % 16)
  let f := (fg.1 + st.a + md5K.getD i 0 + leWord chunk fg.2) % 4294967296
  ⟨st.d, (st.b + rotl32 f (md5S.getD i 0)) % 4294967296, st.b, st.c⟩

/-- Processing of one 64-byte chunk: 64 rounds, then addition into the
running state. -/
def md5Chunk (st : MD5State) (chunk : List Nat) : MD5State :=
  let r := (List.range 64).foldl (md5Round chunk) st
  ⟨(st.a + r.a) % 4294967296, (st.b + r.b) % 4294967296,
   (st.c + r.c) % 4294967296, (st.d + r.d) % 4294967296⟩

/-- MD5 padding: a 0x80 byte, zeros to 56 mod 64, then the bit length
as a little-endian 64-bit integer. -/
def md5Pad (msg : List Nat) : List Nat :=
  let ml := 8 * msg.length
  msg ++ [128] ++ List.replicate ((119 - msg.length % 64) % 64) 0 ++
    [ml % 256, (ml >>> 8) % 256, (ml >>> 16) % 256, (ml >>> 24) % 256,
     (ml >>> 32) % 256, (ml >>> 40) % 256, (ml >>> 48) % 256, (ml >>> 56) % 256]

/-- The four bytes of a 32-bit word, little endian. -/
def wordLEBytes (w : Nat) : List Nat :=
  [w % 256, (w >>> 8) % 256, (w >>> 16) % 256, (w >>> 24) % 256]

/-- The 16-byte MD5 digest of a byte list. -/
def md5Bytes (msg : List Nat) : List Nat :=
  let padded := md5Pad msg
  let chunks := (List.range (padded.length / 64)).map
    (fun i => (padded.drop (64 * i)).take 64)
  let st := chunks.foldl md5Chunk ⟨0x67452301, 0xefcdab89, 0x98badcfe, 0x10325476⟩
  wordLEBytes st.a ++ wordLEBytes st.b ++ wordLEBytes st.c ++ wordLEBytes st.d

/-- Lowercase hexadecimal digit. -/
def hexDigit (n : Nat) : Char :=
  if n < 10 then Char.ofNat (48 + n) else Char.ofNat (87 + n)

/-- Two lowercase hexadecimal digits of one byte. -/
def byteHex (b : Nat) : List Char := [hexDigit (b / 16), hexDigit (b % 16)]

/-- The lowercase hexdigest of MD5, as Python hexdigest produces. -/
def md5Hex (msg : List Nat) : List Char := (md5Bytes msg).flatMap byteHex

/-- UTF-8 bytes of one character, as Python str.encode produces. -/
def utf8Bytes (c : Char) : List Nat :=
  let n := c.toNat
  if n < 128 then [n]
  else if n < 2048 then [192 ||| (n >>> 6), 128 ||| (n &&& 63)]
  else if n < 65536 then
    [224 ||| (n >>> 12), 128 ||| ((n >>> 6) &&& 63), 128 ||| (n &&& 63)]
  else
    [240 ||| (n >>> 18), 128 ||| ((n >>> 12) &&& 63),
     128 ||| ((n >>> 6) &&& 63), 128 ||| (n &&& 63)]

/-- UTF-8 encoding of a character list, as Python str.encode produces. -/
def utf8Encode (l : List Char) : List Nat := l.flatMap utf8Bytes

/-- The content fingerprint of line 182 of the source:
hashlib.md5(content.encode()).hexdigest()[:12]. -/
def fingerprint (content : List Char) : String :=
  String.mk ((md5Hex (utf8Encode content)).take 12)

/-! ### Python string primitives used by ContentExtractor -/

/-- The ASCII whitespace class of the Python regex class backslash-s
(the texts of every claim are ASCII; wider Unicode whitespace behaves
the same way for them). -/
def pyIsSpace (c : Char) : Bool :=
  c = ' ' || c = Char.ofNat 9 || c = Char.ofNat 10 || c = Char.ofNat 13 ||
    c = Char.ofNat 11 || c = Char.ofNat 12

/-- Left-to-right replacement of each maximal whitespace run by one
space, the effect of re.sub of a whitespace-run pattern with a single
space on line 204 of the source; the flag records whether the previous
character was whitespace. -/
def collapseAux : Bool → List Char → List Char
  | _, [] => []
  | prevSpace, c :: rest =>
    if pyIsSpace c then
      if prevSpace then collapseAux true rest
      else ' ' :: collapseAux true rest
    else c :: collapseAux false rest

/-- Whitespace-run collapsing, starting outside a run. -/
def collapseWS (l : List Char) : List Char := collapseAux false l

/-- Python str.strip: leading and trailing whitespace removed. -/
def pyStrip (l : List Char) : List Char :=
  ((l.dropWhile pyIsSpace).reverse.dropWhile pyIsSpace).reverse

/-- Whether the needle occurs in the haystack exactly at a position
(character-wise, as Python slices compare). -/
def matchesAt (text kw : List Char) (pos : Nat) : Bool :=
  (text.drop pos).take kw.length = kw

/-- Python str.find(kw, start): the least position at or after start
where kw occurs (positions run up to the text length, so the empty
needle is found at start whenever start is at most the length); none is
the Python return value -1. -/
def pyFind (text kw : List Char) (start : Nat) : Option Nat :=
  (List.range (text.length + 1)).find?
    (fun pos => decide (start ≤ pos) && matchesAt text kw pos)

/-- Python str.title restricted to ASCII letters: the first letter of
each letter run is uppercased and the rest are lowercased. -/
def pyTitleAux : Bool → List Char → List Char
  | _, [] => []
  | prevAlpha, c :: rest =>
    if c.isAlpha then
      (if prevAlpha then c.toLower else c.toUpper) :: pyTitleAux true rest
    else c :: pyTitleAux false rest

/-- Python str.title of a keyword. -/
def pyTitle (l : List Char) : List Char := pyTitleAux false l

/-! ### ContentExtractor (reading_digest.py lines 152 to 219) -/

/-- The sentence separators of ContentExtractor._clean_content, in the
exact order the source loop iterates them. -/
def sentenceSeps : List Char := ['。', '！', '？', '.', '!', '?']

/-- The for loop over separators in _clean_content: the first separator
in list order whose first occurrence lies strictly below index 50 wins,
everything through that occurrence is dropped and the rest is stripped;
the loop then breaks.  Separators that occur only at index 50 or later
do not break the loop. -/
def trimToBoundary : List Char → List Char → List Char
  | [], content => content
  | sep :: rest, content =>
    match content.findIdx? (fun c => c = sep) with
    | some idx =>
      if idx < 50 then pyStrip (content.drop (idx + 1))
      else trimToBoundary rest content
    | none => trimToBoundary rest content

/-- ContentExtractor._clean_content: collapse whitespace runs, strip,
and unless the result already starts with a separator, run the
separator loop. -/
def clean_content (content : List Char) : List Char :=
  let c := pyStrip (collapseWS content)
  match c.head? with
  | some h => if sentenceSeps.contains h then c else trimToBoundary sentenceSeps c
  | none => trimToBoundary sentenceSeps c

/-- Modelled from the wording of the spec, for comparison only (claim
C6): the same cleaning but dropping through the positionally earliest
boundary of any kind found among the first 50 characters. -/
def clean_content_spec (content : List Char) : List Char :=
  let c := pyStrip (collapseWS content)
  match c.head? with
  | some h =>
    if sentenceSeps.contains h then c
    else
      match (c.take 50).findIdx? (fun ch => sentenceSeps.contains ch) with
      | some idx => pyStrip (c.drop (idx + 1))
      | none => c
  | none =>
    match (c.take 50).findIdx? (fun ch => sentenceSeps.contains ch) with
    | some idx => pyStrip (c.drop (idx + 1))
    | none => c

/-- Declarative form of the separator loop: the first separator in list
order whose first occurrence is below 50, together with that occurrence. -/
def firstListedHit (c : List Char) : Option Nat :=
  sentenceSeps.findSome? (fun sep =>
    match c.findIdx? (fun ch => ch = sep) with
    | some idx => if idx < 50 then some idx else none
    | none => none)

/-- The startswith test of _clean_content: whether the cleaned window
already begins with one of the sentence separators. -/
def startsWithBoundary (c : List Char) : Bool :=
  match c.head? with
  | some h => sentenceSeps.contains h
  | none => false

/-- One row produced by ContentExtractor.extract (lines 185 to 195 of
the source).  The date field is the external datetime.now rendering,
passed in as the parameter today. -/
structure Record where
  title : List Char
  category : String
  tags : List Char
  content : List Char
  source : String
  author : String
  dateAdded : String
  uniqueId : String
  notes : String
deriving DecidableEq, Repr

/-- ContentExtractor state: the constructor lowercases every keyword
and stores the context half-width (default 200). -/
structure ContentExtractor where
  keywords : List (List Char)
  context_chars : Nat
deriving DecidableEq, Repr

/-- Constructor of ContentExtractor from raw keywords. -/
def ContentExtractor.make (raw : List String) (context_chars : Nat) : ContentExtractor :=
  ⟨raw.map (fun s => s.toList.map Char.toLower), context_chars⟩

/-- Start of the context window: max 0 (pos - W), which is natural
subtraction. -/
def ctxStart (pos W : Nat) : Nat := pos - W

/-- End of the context window: min len (pos + kwLen + W). -/
def ctxEnd (textLen pos kwLen W : Nat) : Nat := min textLen (pos + kwLen + W)

/-- The window content cleaned at one occurrence. -/
def occContent (W : Nat) (text kw : List Char) (pos : Nat) : List Char :=
  clean_content (pyStrip ((text.drop (ctxStart pos W)).take
    (ctxEnd text.length pos kw.length W - ctxStart pos W)))

/-- The record built at one accepted occurrence. -/
def mkRecord (kw content : List Char) (h source author today : String) : Record :=
  ⟨pyTitle kw, "提取内容", kw, content, source, author, today, h, ""⟩

/-- The while loop of ContentExtractor.extract for one keyword: find
the next occurrence from the resume index, slice and strip the clipped
context window, clean it, and append a record unless the fingerprint
was already seen; the resume index then moves one past the match
position.  The fuel argument only bounds the number of iterations; the
stabilization theorem below shows any fuel of at least
textLower.length + 1 - start yields the fixed final value, so the loop
of the source, which runs until find fails, is captured exactly. -/
def scanKw (W : Nat) (text textLower kw : List Char) (source author today : String) :
    Nat → Nat → List String × List Record → List String × List Record
  | 0, _, st => st
  | fuel + 1, start, (seen, acc) =>
    match pyFind textLower kw start with
    | none => (seen, acc)
    | some pos =>
      let s := ctxStart pos W
      let e := ctxEnd text.length pos kw.length W
      let content := clean_content (pyStrip ((text.drop s).take (e - s)))
      let h := fingerprint content
      if seen.contains h then
        scanKw W text textLower kw source author today fuel (pos + 1) (seen, acc)
      else
        scanKw W text textLower kw source author today fuel (pos + 1)
          (h :: seen, acc ++ [mkRecord kw content h source author today])

/-- ContentExtractor.extract: the seen-fingerprint set and the result
list are threaded through the keyword loop; the text is lowercased once
and searched case-folded while slices are taken from the original text. -/
def ContentExtractor.extract (ex : ContentExtractor) (text : List Char)
    (source author today : String) : List Record :=
  let textLower := text.map Char.toLower
  (ex.keywords.foldl
    (fun st kw =>
      scanKw ex.context_chars text textLower kw source author today
        (textLower.length + 1) 0 st)
    ([], [])).2

/-! ### ReadingDigest.process_document (reading_digest.py lines 353 to 419)

The external collaborators enter as parameters: the document parser as
an Except value (its error is the caught exception text), the Google
sheet as the list of already-stored unique ids together with the sheet
id of the final link, the Discord alerter as the returned list of sent
alerts, the tiktoken encoder and todays date as for the components
above.  setup_headers only touches the remote sheet and has no
observable effect in the model.  The header-driven row projection of
append_rows keeps exactly the records whose unique id is not already
stored, so the model returns those records themselves. -/

/-- One message handed to the DiscordAlerter: send_result goes to the
results webhook, send_token_alert to the token webhook. -/
inductive Alert where
  | result : String → Alert
  | tokenAlert : String → Alert
deriving DecidableEq, Repr

/-- The result dictionary of process_document. -/
structure RunResult where
  success : Bool
  entries_found : Nat
  entries_added : Nat
  tokens_used : Int
  message : String
deriving DecidableEq, Repr

/-- Observable outcome of one process_document call: the returned
dictionary, the monitor state after the call, the alerts sent in
order, and the rows actually appended to the sheet. -/
structure ProcOutput where
  res : RunResult
  monitor : TokenMonitor
  alerts : List Alert
  appended : List Record
deriving DecidableEq, Repr

/-- The step-1 starting alert of process_document. -/
def startAlert (fileName : String) (keywords : List String) : Alert :=
  Alert.result ("🚀 **Starting extraction**\n- File: " ++ fileName ++
    "\n- Keywords: " ++ String.intercalate ", " keywords)

/-- ReadingDigest.process_document.  A none result is the uncaught
ZeroDivisionError escaping from add_usage when the configured budget
is zero. -/
def process_document (fileName : String) (parseResult : Except String (List Char))
    (encoder : Option (List Char → Nat)) (keywords : List String)
    (source author today : String) (existing : List String) (sheetId : String)
    (m : TokenMonitor) : Option ProcOutput :=
  let start := startAlert fileName keywords
  match parseResult with
  | .error e =>
    let msg := "❌ Failed to parse document: " ++ e
    some ⟨⟨false, 0, 0, 0, msg⟩, m, [start, Alert.result msg], []⟩
  | .ok text =>
    let tokens : Int := (estimate_tokens encoder text : Nat)
    let step := m.add_usage tokens
    match step.2 with
    | none => none
    | some (ok, budgetMsg) =>
      let alerts1 := if budgetMsg = "" then [start] else [start, Alert.tokenAlert budgetMsg]
      if ok then
        let ex := ContentExtractor.make keywords 200
        let src := if source = "" then fileName else source
        let entries := ex.extract text src author today
        let foundAlert := Alert.result ("📝 Found " ++ toString entries.length ++
          " matching entries")
        let newRows := entries.filter (fun r => !existing.contains r.uniqueId)
        let added := newRows.length
        let finalMsg := "✅ **Extraction Complete**\n- Entries found: " ++
          toString entries.length ++ "\n- New entries added: " ++ toString added ++
          "\n- Duplicates skipped: " ++ toString (entries.length - added) ++
          "\n- " ++ step.1.get_status ++
          "\n\n📋 **Please review your Google Sheet:**\nhttps://docs.google.com/spreadsheets/d/" ++
          sheetId
        some ⟨⟨true, entries.length, added, tokens, finalMsg⟩, step.1,
          alerts1 ++ [foundAlert, Alert.result finalMsg, Alert.tokenAlert step.1.get_status],
          newRows⟩
      else
        some ⟨⟨false, 0, 0, tokens, budgetMsg⟩, step.1, alerts1, []⟩

/-! ### Helper lemmas about TokenMonitor -/

/-- The first component of add_usage is always the incremented state,
whichever branch the check takes. -/
theorem add_usage_fst (m : TokenMonitor) (t : Int) :
    (m.add_usage t).1 = { m with tokens_used := m.tokens_used + t } := rfl

/-- With a nonzero ceiling, the second component of add_usage is the
three-way case split on the post-call ratio. -/
theorem add_usage_snd (m : TokenMonitor) (t : Int) (hb : m.max_budget ≠ 0) :
    (m.add_usage t).2 =
      (if 1 ≤ ((m.tokens_used + t : ℤ) : ℚ) / (m.max_budget : ℚ) then
        some (false, exceededMsg (m.tokens_used + t) m.max_budget)
      else if m.warning_threshold ≤ ((m.tokens_used + t : ℤ) : ℚ) / (m.max_budget : ℚ) then
        some (true, warningMsg (((m.tokens_used + t : ℤ) : ℚ) / (m.max_budget : ℚ))
          (m.tokens_used + t) m.max_budget)
      else some (true, "")) := by
  simp only [TokenMonitor.add_usage]
  rw [if_neg hb]

/-- With a zero ceiling, add_usage raises (the Python
ZeroDivisionError). -/
theorem add_usage_raises (m : TokenMonitor) (t : Int) (hb : m.max_budget = 0) :
    (m.add_usage t).2 = none := by
  simp only [TokenMonitor.add_usage]
  rw [if_pos hb]

/-- Exceeded branch of add_usage. -/
theorem add_usage_exceeded (m : TokenMonitor) (t : Int) (hb : m.max_budget ≠ 0)
    (h1 : 1 ≤ ((m.tokens_used + t : ℤ) : ℚ) / (m.max_budget : ℚ)) :
    (m.add_usage t).2 = some (false, exceededMsg (m.tokens_used + t) m.max_budget) := by
  rw [add_usage_snd m t hb, if_pos h1]

/-- Warning branch of add_usage. -/
theorem add_usage_warns (m : TokenMonitor) (t : Int) (hb : m.max_budget ≠ 0)
    (h1 : ((m.tokens_used + t : ℤ) : ℚ) / (m.max_budget : ℚ) < 1)
    (h2 : m.warning_threshold ≤ ((m.tokens_used + t : ℤ) : ℚ) / (m.max_budget : ℚ)) :
    (m.add_usage t).2 = some (true, warningMsg
      (((m.tokens_used + t : ℤ) : ℚ) / (m.max_budget : ℚ)) (m.tokens_used + t) m.max_budget) := by
  rw [add_usage_snd m t hb, if_neg (by linarith), if_pos h2]

/-- Quiet branch of add_usage. -/
theorem add_usage_quiet (m : TokenMonitor) (t : Int) (hb : m.max_budget ≠ 0)
    (h1 : ((m.tokens_used + t : ℤ) : ℚ) / (m.max_budget : ℚ) < 1)
    (h2 : ((m.tokens_used + t : ℤ) : ℚ) / (m.max_budget : ℚ) < m.warning_threshold) :
    (m.add_usage t).2 = some (true, "") := by
  rw [add_usage_snd m t hb, if_neg (by linarith), if_neg (by linarith)]

/-- The budget-exceeded message is never empty. -/
theorem exceededMsg_ne_empty (u b : Int) : exceededMsg u b ≠ "" := by
  intro h
  have h2 := congrArg String.data h
  simp [exceededMsg, String.data_append] at h2

/-- The warning message is never empty. -/
theorem warningMsg_ne_empty (p : ℚ) (u b : Int) : warningMsg p u b ≠ "" := by
  intro h
  have h2 := congrArg String.data h
  simp [warningMsg, String.data_append] at h2

/-- The cumulative counter after a sequence of calls is the starting
counter plus the sum of the costs. -/
theorem runUsages_tokens (costs : List Int) :
    ∀ m : TokenMonitor, (runUsages m costs).tokens_used = m.tokens_used + costs.sum := by
  induction costs with
  | nil => intro m; simp [runUsages]
  | cons c cs ih =>
    intro m
    have h : runUsages m (c :: cs) = runUsages ((m.add_usage c).1) cs := rfl
    rw [h, ih, add_usage_fst]
    simp
    ring

/-! ### Claim C1 -/

/-- Claim C1, the code evaluated at the failing inputs: with ceiling 0
the division in add_usage raises ZeroDivisionError (the none result)
although the usage was already incremented, and with the negative
ceiling -5 the call returns permitted true with an empty message.  In
neither case does the call return permitted false with a
budget-exceeded message as the claim requires. -/
theorem c1_nonpositive_ceiling_behavior :
    (TokenMonitor.add_usage ⟨0, 4/5, 0⟩ 1).2 = none ∧
    ((TokenMonitor.add_usage ⟨0, 4/5, 0⟩ 1).1).tokens_used = 1 ∧
    (TokenMonitor.add_usage ⟨-5, 4/5, 0⟩ 1).2 = some (true, "") := by
  refine ⟨add_usage_raises _ 1 rfl, rfl, ?_⟩
  exact add_usage_quiet ⟨-5, 4/5, 0⟩ 1 (by norm_num) (by norm_num) (by norm_num)

/-! ### Claim C2 -/

/-- Claim C2: with a positive ceiling, the post-call ratio decides the
outcome of add_usage: a ratio of at least 1 gives permitted false with
the budget-exceeded message; a ratio below 1 but at least the warning
threshold gives permitted true with a non-empty message; a ratio below
both gives permitted true with an empty message. -/
theorem c2_ratio_trichotomy (m : TokenMonitor) (t : Int)
    (hb : 0 < m.max_budget) :
    (1 ≤ ((m.tokens_used + t : ℤ) : ℚ) / (m.max_budget : ℚ) →
      (m.add_usage t).2 = some (false, exceededMsg (m.tokens_used + t) m.max_budget)) ∧
    (((m.tokens_used + t : ℤ) : ℚ) / (m.max_budget : ℚ) < 1 →
      m.warning_threshold ≤ ((m.tokens_used + t : ℤ) : ℚ) / (m.max_budget : ℚ) →
      ∃ msg, (m.add_usage t).2 = some (true, msg) ∧ msg ≠ "") ∧
    (((m.tokens_used + t : ℤ) : ℚ) / (m.max_budget : ℚ) < 1 →
      ((m.tokens_used + t : ℤ) : ℚ) / (m.max_budget : ℚ) < m.warning_threshold →
      (m.add_usage t).2 = some (true, "")) := by
  have hb0 : m.max_budget ≠ 0 := by omega
  refine ⟨fun h1 => add_usage_exceeded m t hb0 h1,
    fun h1 h2 => ⟨_, add_usage_warns m t hb0 h1 h2, warningMsg_ne_empty _ _ _⟩,
    fun h1 h2 => add_usage_quiet m t hb0 h1 h2⟩

/-- Witness for claim C2 at the scenario of the spec: cost 1000
against ceiling 1000 gives ratio 1 and permitted false. -/
theorem c2_ratio_trichotomy_witness :
    (0 : ℤ) < 1000 ∧
    (TokenMonitor.add_usage ⟨1000, 4/5, 0⟩ 1000).2 =
      some (false, exceededMsg 1000 1000) := by
  refine ⟨by norm_num, ?_⟩
  exact (c2_ratio_trichotomy ⟨1000, 4/5, 0⟩ 1000 (by norm_num)).1 (by norm_num)

/-! ### Claim C3 -/

/-- Claim C3: every add_usage call adds exactly its cost to the
cumulative counter and changes nothing else, even when it returns
permitted false or raises; over any call sequence the counter ends at
the starting value plus the sum of the costs; and with non-negative
costs the counter is non-decreasing along the sequence. -/
theorem c3_usage_accounting :
    (∀ (m : TokenMonitor) (t : Int),
      ((m.add_usage t).1).tokens_used = m.tokens_used + t ∧
      ((m.add_usage t).1).max_budget = m.max_budget ∧
      ((m.add_usage t).1).warning_threshold = m.warning_threshold) ∧
    (∀ (m : TokenMonitor) (costs : List Int),
      (runUsages m costs).tokens_used = m.tokens_used + costs.sum) ∧
    (∀ (m : TokenMonitor) (l1 l2 : List Int), (∀ c ∈ l2, 0 ≤ c) →
      (runUsages m l1).tokens_used ≤ (runUsages m (l1 ++ l2)).tokens_used) := by
  refine ⟨fun m t => ⟨rfl, rfl, rfl⟩, fun m costs => runUsages_tokens costs m, ?_⟩
  intro m l1 l2 h2
  have happ : runUsages m (l1 ++ l2) = runUsages (runUsages m l1) l2 := by
    simp [runUsages, List.foldl_append]
  rw [happ, runUsages_tokens l2]
  have h0 : 0 ≤ l2.sum := List.sum_nonneg h2
  linarith

/-- Witness for claim C3 on a concrete call sequence. -/
theorem c3_usage_accounting_witness :
    (∀ c ∈ ([2, 3] : List Int), 0 ≤ c) ∧
    (runUsages ⟨100, 4/5, 0⟩ [5]).tokens_used ≤
      (runUsages ⟨100, 4/5, 0⟩ ([5] ++ [2, 3])).tokens_used :=
  ⟨by decide, c3_usage_accounting.2.2 ⟨100, 4/5, 0⟩ [5] [2, 3] (by decide)⟩

/-! ### Claim C4 -/

/-- Claim C4 counterexample: on a tracker whose usage already equals
its ceiling, add_usage 0 returns permitted false (with the
budget-exceeded message), not permitted true with an empty message as
the claim asserts for every tracker state. -/
theorem c4_counterexample :
    (TokenMonitor.add_usage ⟨1000, 4/5, 1000⟩ 0).2 =
      some (false, exceededMsg 1000 1000) ∧
    some (false, exceededMsg 1000 1000) ≠ (some (true, "") : Option (Bool × String)) := by
  constructor
  · exact add_usage_exceeded ⟨1000, 4/5, 1000⟩ 0 (by norm_num) (by norm_num)
  · simp

/-- Claim C4 amended: add_usage 0 never changes the tracker state; for
a nonzero ceiling it returns permitted true with an empty message
exactly when the current usage/ceiling ratio is below both 1 and the
warning threshold (the ratio is recomputed on every call, zero-cost
ones included); and on every tracker with positive ceiling whose usage
has reached the ceiling it returns permitted false with the
budget-exceeded message. -/
theorem c4_zero_cost (m : TokenMonitor) :
    (m.add_usage 0).1 = m ∧
    (m.max_budget ≠ 0 →
      ((m.add_usage 0).2 = some (true, "") ↔
        ((m.tokens_used : ℚ) / (m.max_budget : ℚ) < 1 ∧
         (m.tokens_used : ℚ) / (m.max_budget : ℚ) < m.warning_threshold))) ∧
    (0 < m.max_budget → m.max_budget ≤ m.tokens_used →
      (m.add_usage 0).2 = some (false, exceededMsg m.tokens_used m.max_budget)) := by
  refine ⟨?_, ?_, ?_⟩
  · rw [add_usage_fst]
    cases m
    simp
  · intro hb
    rw [add_usage_snd m 0 hb]
    have hp : ((m.tokens_used + 0 : ℤ) : ℚ) / (m.max_budget : ℚ) =
        (m.tokens_used : ℚ) / (m.max_budget : ℚ) := by norm_num
    rw [hp]
    constructor
    · intro h
      split_ifs at h with h1 h2
      · exact absurd h (by simp)
      · have h3 := h
        simp only [Option.some.injEq, Prod.mk.injEq, true_and] at h3
        exact absurd h3 (warningMsg_ne_empty _ _ _)
      · exact ⟨not_le.mp h1, not_le.mp h2⟩
    · rintro ⟨h1, h2⟩
      rw [if_neg (by linarith), if_neg (by linarith)]
  · intro hb hle
    have hb0 : m.max_budget ≠ 0 := by omega
    have hbpos : (0 : ℚ) < (m.max_budget : ℚ) := by exact_mod_cast hb
    have hle2 : ((m.max_budget : ℤ) : ℚ) ≤ ((m.tokens_used : ℤ) : ℚ) := by exact_mod_cast hle
    have h1 : (1 : ℚ) ≤ ((m.tokens_used + 0 : ℤ) : ℚ) / (m.max_budget : ℚ) := by
      rw [le_div_iff₀ hbpos]
      push_cast
      linarith
    have h2 := add_usage_exceeded m 0 hb0 h1
    simpa using h2

/-- Witness for claim C4 on a fresh tracker (quiet case of the
equivalence) and an at-ceiling tracker (exceeded case). -/
theorem c4_zero_cost_witness :
    (TokenMonitor.add_usage ⟨1000, 4/5, 0⟩ 0).1 = ⟨1000, 4/5, 0⟩ ∧
    (TokenMonitor.add_usage ⟨1000, 4/5, 0⟩ 0).2 = some (true, "") ∧
    (TokenMonitor.add_usage ⟨1000, 4/5, 1000⟩ 0).2 =
      some (false, exceededMsg 1000 1000) :=
  ⟨(c4_zero_cost ⟨1000, 4/5, 0⟩).1,
    ((c4_zero_cost ⟨1000, 4/5, 0⟩).2.1 (by norm_num)).mpr ⟨by norm_num, by norm_num⟩,
    (c4_zero_cost ⟨1000, 4/5, 1000⟩).2.2 (by norm_num) (by norm_num)⟩

/-! ### Helper lemmas about pyFind -/

/-- A found position is at or after the resume index and at most the
text length. -/
theorem pyFind_le (text kw : List Char) (start pos : Nat)
    (h : pyFind text kw start = some pos) : start ≤ pos ∧ pos ≤ text.length := by
  unfold pyFind at h
  have hp := List.find?_some h
  have hm := List.mem_of_find?_eq_some h
  rw [List.mem_range] at hm
  simp only [Bool.and_eq_true, decide_eq_true_eq] at hp
  exact ⟨hp.1, by omega⟩

/-- Once the resume index passes the text length, the search reports no
match. -/
theorem pyFind_none (text kw : List Char) (start : Nat) (h : text.length < start) :
    pyFind text kw start = none := by
  unfold pyFind
  rw [List.find?_eq_none]
  intro pos hmem
  rw [List.mem_range] at hmem
  simp only [Bool.and_eq_true, decide_eq_true_eq, not_and]
  intro hle
  omega

/-! ### Claim C8 -/

/-- Claim C8: at every occurrence the extractor finds, the context
window bounds are clipped into the text range: the start is a natural
number (hence at least 0), it is at most the end, the end is at most
the text length, and the slice taken from the text has exactly the
clipped width, so no position outside the text is ever read. -/
theorem c8_window_clipped (text kw : List Char) (start pos W : Nat)
    (h : pyFind (text.map Char.toLower) kw start = some pos) :
    pos ≤ text.length ∧
    ctxStart pos W ≤ ctxEnd text.length pos kw.length W ∧
    ctxEnd text.length pos kw.length W ≤ text.length ∧
    ((text.drop (ctxStart pos W)).take
        (ctxEnd text.length pos kw.length W - ctxStart pos W)).length =
      ctxEnd text.length pos kw.length W - ctxStart pos W := by
  obtain ⟨h1, h2⟩ := pyFind_le _ _ _ _ h
  rw [List.length_map] at h2
  unfold ctxStart ctxEnd
  refine ⟨h2, ?_, ?_, ?_⟩
  · omega
  · exact min_le_left _ _
  · rw [List.length_take, List.length_drop]
    omega

/-- Witness for claim C8 at a match 1 character from the start of a
3-character text with half-width 200. -/
theorem c8_window_clipped_witness :
    pyFind ("Abc".toList.map Char.toLower) "b".toList 0 = some 1 ∧
    ctxEnd "Abc".toList.length 1 "b".toList.length 200 ≤ "Abc".toList.length ∧
    ctxStart 1 200 ≤ ctxEnd "Abc".toList.length 1 "b".toList.length 200 :=
  ⟨by decide,
    (c8_window_clipped "Abc".toList "b".toList 0 1 200 (by decide)).2.2.1,
    (c8_window_clipped "Abc".toList "b".toList 0 1 200 (by decide)).2.1⟩

/-! ### Helper lemmas about the separator loop -/

/-- A found index is at or after the running offset. -/
theorem findIdx?_ge_offset (p : Char → Bool) :
    ∀ (l : List Char) (i j : Nat), l.findIdx? p i = some j → i ≤ j := by
  intro l
  induction l with
  | nil => intro i j h; simp [List.findIdx?] at h
  | cons a t ih =>
    intro i j h
    rw [List.findIdx?_cons] at h
    by_cases hp : p a = true
    · rw [if_pos hp] at h
      injection h with h2
      omega
    · rw [if_neg hp] at h
      have h3 := ih (i + 1) j h
      omega

/-- If no element of the first n entries satisfies the test, any found
index is at least the offset plus n. -/
theorem findIdx?_ge_of_take (p : Char → Bool) :
    ∀ (l : List Char) (n i j : Nat), (∀ ch ∈ l.take n, ¬ p ch = true) →
      l.findIdx? p i = some j → i + n ≤ j := by
  intro l
  induction l with
  | nil => intro n i j _ h; simp [List.findIdx?] at h
  | cons a t ih =>
    intro n i j hn h
    rw [List.findIdx?_cons] at h
    match n with
    | 0 =>
      simp only [Nat.add_zero]
      by_cases hp : p a = true
      · rw [if_pos hp] at h
        injection h with h2
        omega
      · rw [if_neg hp] at h
        have h3 := findIdx?_ge_offset p t (i + 1) j h
        omega
    | Nat.succ m =>
      have hpa : ¬ p a = true := hn a (by simp)
      rw [if_neg hpa] at h
      have h3 := ih m (i + 1) j (fun ch hch => hn ch (by simp [hch])) h
      omega

/-- The separator loop computed declaratively: the result is governed
by the first separator in list order whose first occurrence is below
index 50. -/
theorem trimToBoundary_eq (content : List Char) :
    ∀ seps : List Char,
      trimToBoundary seps content =
        match seps.findSome? (fun sep =>
          match content.findIdx? (fun ch => ch = sep) with
          | some idx => if idx < 50 then some idx else none
          | none => none) with
        | some idx => pyStrip (content.drop (idx + 1))
        | none => content := by
  intro seps
  induction seps with
  | nil => rfl
  | cons sep rest ih =>
    rw [List.findSome?_cons]
    show (match content.findIdx? (fun c => c = sep) with
      | some idx =>
        if idx < 50 then pyStrip (content.drop (idx + 1))
        else trimToBoundary rest content
      | none => trimToBoundary rest content) = _
    cases hf : content.findIdx? (fun ch => ch = sep) with
    | none => simpa using ih
    | some idx =>
      by_cases h50 : idx < 50
      · simp only [hf, if_pos h50]
      · simp only [hf, if_neg h50]
        simpa using ih

/-- When no separator occurs among the first 50 characters, the loop
finds nothing and leaves the content untouched. -/
theorem trimToBoundary_untouched (content : List Char)
    (h : ∀ ch ∈ content.take 50, ch ∉ sentenceSeps) :
    trimToBoundary sentenceSeps content = content := by
  rw [trimToBoundary_eq]
  have hnone : (sentenceSeps.findSome? (fun sep =>
      match content.findIdx? (fun ch => ch = sep) with
      | some idx => if idx < 50 then some idx else none
      | none => none)) = none := by
    rw [List.findSome?_eq_none_iff]
    intro sep hsep
    cases hf : content.findIdx? (fun ch => ch = sep) with
    | none => rfl
    | some idx =>
      have hge : 0 + 50 ≤ idx := by
        refine findIdx?_ge_of_take _ content 50 0 idx ?_ hf
        intro ch hch
        simp only [decide_eq_true_eq]
        intro hche
        exact h ch hch (hche ▸ hsep)
      simp only [if_neg (by omega : ¬ idx < 50)]
  rw [hnone]

/-! ### Claim C6 -/

/-- Claim C6 counterexample: on the window consisting of the letter a,
a period, a space, the letter b, the CJK full stop and the letter c,
the positionally earliest boundary among the first 50 characters is the
period at index 1, so the claim requires the result to be everything
after it, while the code checks the CJK full stop first (it is first in
the fixed separator order) and drops through index 4, returning only
the final letter. -/
theorem c6_counterexample :
    clean_content "a. b。c".toList = "c".toList ∧
    clean_content_spec "a. b。c".toList = "b。c".toList ∧
    clean_content "a. b。c".toList ≠ clean_content_spec "a. b。c".toList :=
  ⟨by decide, by decide, by decide⟩

/-- Claim C6 amended: cleaning collapses whitespace runs to single
spaces and strips the ends; a window already beginning with a
separator is left as is; otherwise the separators are tried in the
fixed order CJK full stop, CJK exclamation, CJK question mark, period,
exclamation, question mark, and the first separator in that order whose
first occurrence lies within the first 50 characters has everything
through that occurrence dropped (followed by another strip) — this is
not necessarily the positionally earliest boundary; if no separator
occurs within the first 50 characters the window is left untouched. -/
theorem c6_clean_content_characterization (content : List Char) :
    (startsWithBoundary (pyStrip (collapseWS content)) = true →
      clean_content content = pyStrip (collapseWS content)) ∧
    (startsWithBoundary (pyStrip (collapseWS content)) = false →
      clean_content content =
        (match firstListedHit (pyStrip (collapseWS content)) with
         | some idx => pyStrip ((pyStrip (collapseWS content)).drop (idx + 1))
         | none => pyStrip (collapseWS content))) ∧
    ((∀ ch ∈ (pyStrip (collapseWS content)).take 50, ch ∉ sentenceSeps) →
      clean_content content = pyStrip (collapseWS content)) := by
  refine ⟨?_, ?_, ?_⟩
  · intro hs
    unfold clean_content
    unfold startsWithBoundary at hs
    cases hh : (pyStrip (collapseWS content)).head? with
    | none => rw [hh] at hs; simp at hs
    | some h =>
      rw [hh] at hs
      simp only [hh]
      rw [if_pos hs]
  · intro hs
    unfold clean_content
    unfold startsWithBoundary at hs
    cases hh : (pyStrip (collapseWS content)).head? with
    | none =>
      simp only [hh]
      exact trimToBoundary_eq _ sentenceSeps
    | some h =>
      rw [hh] at hs
      have hs2 : sentenceSeps.contains h = false := hs
      simp only [hh]
      rw [if_neg (by rw [hs2]; simp)]
      exact trimToBoundary_eq _ sentenceSeps
  · intro hno
    unfold clean_content
    cases hh : (pyStrip (collapseWS content)).head? with
    | none => simp only [hh]; exact trimToBoundary_untouched _ hno
    | some h =>
      simp only [hh]
      by_cases hc : sentenceSeps.contains h
      · rw [if_pos hc]
      · rw [if_neg hc]
        exact trimToBoundary_untouched _ hno

/-- Witness for claim C6 on the counterexample window (second and
third branches) and a window already at a boundary (first branch). -/
theorem c6_clean_content_characterization_witness :
    (startsWithBoundary (pyStrip (collapseWS ". xy".toList)) = true ∧
      clean_content ". xy".toList = pyStrip (collapseWS ". xy".toList)) ∧
    (startsWithBoundary (pyStrip (collapseWS "a. b。c".toList)) = false ∧
      clean_content "a. b。c".toList =
        (match firstListedHit (pyStrip (collapseWS "a. b。c".toList)) with
         | some idx => pyStrip ((pyStrip (collapseWS "a. b。c".toList)).drop (idx + 1))
         | none => pyStrip (collapseWS "a. b。c".toList))) :=
  ⟨⟨by decide, (c6_clean_content_characterization ". xy".toList).1 (by decide)⟩,
    ⟨by decide, (c6_clean_content_characterization "a. b。c".toList).2.1 (by decide)⟩⟩

/-! ### Claim C7 -/

set_option maxRecDepth 200000 in
/-- Claim C7 counterexample: on the text of the scenario with keyword
cat and half-width 5, extract emits exactly one record, not two
distinct records with two distinct fingerprints as the claim states. -/
theorem c7_counterexample :
    ((ContentExtractor.make ["cat"] 5).extract "The cat sat. The cat ran.".toList
      "src" "au" "2026-10-12").length = 1 ∧
    ¬ ((ContentExtractor.make ["cat"] 5).extract "The cat sat. The cat ran.".toList
      "src" "au" "2026-10-12").length = 2 := by
  constructor <;> decide

set_option maxRecDepth 200000 in
/-- Claim C7 amended: extract finds exactly two occurrences of the
keyword (positions 4 and 17); the two context windows are the full
first and second sentences, but since neither begins with a separator
and each contains its terminal period within the first 50 characters,
cleaning drops everything through that period, so both windows clean
to the empty string; the two occurrences therefore share one
fingerprint (the hash of the empty string) and exactly one record is
emitted, with empty content. -/
theorem c7_scenario :
    pyFind ("The cat sat. The cat ran.".toList.map Char.toLower) "cat".toList 0 = some 4 ∧
    pyFind ("The cat sat. The cat ran.".toList.map Char.toLower) "cat".toList 5 = some 17 ∧
    pyFind ("The cat sat. The cat ran.".toList.map Char.toLower) "cat".toList 18 = none ∧
    pyStrip (("The cat sat. The cat ran.".toList.drop (ctxStart 4 5)).take
      (ctxEnd 25 4 3 5 - ctxStart 4 5)) = "The cat sat.".toList ∧
    pyStrip (("The cat sat. The cat ran.".toList.drop (ctxStart 17 5)).take
      (ctxEnd 25 17 3 5 - ctxStart 17 5)) = "The cat ran.".toList ∧
    clean_content "The cat sat.".toList = [] ∧
    clean_content "The cat ran.".toList = [] ∧
    (ContentExtractor.make ["cat"] 5).extract "The cat sat. The cat ran.".toList
        "src" "au" "2026-10-12" =
      [mkRecord "cat".toList [] (fingerprint []) "src" "au" "2026-10-12"] ∧
    fingerprint [] = "d41d8cd98f00" := by
  refine ⟨by decide, by decide, by decide, by decide, by decide, by decide, by decide,
    by decide, by decide⟩

/-! ### Helper lemmas about the extraction loop -/

/-- One-step unfolding of the while loop. -/
theorem scanKw_succ (W : Nat) (text textLower kw : List Char)
    (source author today : String) (fuel start : Nat) (seen : List String)
    (acc : List Record) :
    scanKw W text textLower kw source author today (fuel + 1) start (seen, acc) =
      match pyFind textLower kw start with
      | none => (seen, acc)
      | some pos =>
        let s := ctxStart pos W
        let e := ctxEnd text.length pos kw.length W
        let content := clean_content (pyStrip ((text.drop s).take (e - s)))
        let h := fingerprint content
        if seen.contains h then
          scanKw W text textLower kw source author today fuel (pos + 1) (seen, acc)
        else
          scanKw W text textLower kw source author today fuel (pos + 1)
            (h :: seen, acc ++ [mkRecord kw content h source author today]) := rfl

/-- Loop step on a failed search. -/
theorem scanKw_none (W : Nat) (text textLower kw : List Char)
    (source author today : String) (fuel start : Nat) (seen : List String)
    (acc : List Record) (hf : pyFind textLower kw start = none) :
    scanKw W text textLower kw source author today (fuel + 1) start (seen, acc) =
      (seen, acc) := by
  rw [scanKw_succ, hf]

/-- Loop step on a match whose fingerprint was already seen. -/
theorem scanKw_seen (W : Nat) (text textLower kw : List Char)
    (source author today : String) (fuel start pos : Nat) (seen : List String)
    (acc : List Record) (hf : pyFind textLower kw start = some pos)
    (hc : seen.contains (fingerprint (occContent W text kw pos)) = true) :
    scanKw W text textLower kw source author today (fuel + 1) start (seen, acc) =
      scanKw W text textLower kw source author today fuel (pos + 1) (seen, acc) := by
  rw [scanKw_succ, hf]
  dsimp only [occContent] at hc ⊢
  rw [if_pos hc]

/-- Loop step on a match with a fresh fingerprint. -/
theorem scanKw_fresh (W : Nat) (text textLower kw : List Char)
    (source author today : String) (fuel start pos : Nat) (seen : List String)
    (acc : List Record) (hf : pyFind textLower kw start = some pos)
    (hc : ¬ seen.contains (fingerprint (occContent W text kw pos)) = true) :
    scanKw W text textLower kw source author today (fuel + 1) start (seen, acc) =
      scanKw W text textLower kw source author today fuel (pos + 1)
        (fingerprint (occContent W text kw pos) :: seen,
         acc ++ [mkRecord kw (occContent W text kw pos)
           (fingerprint (occContent W text kw pos)) source author today]) := by
  rw [scanKw_succ, hf]
  dsimp only [occContent] at hc ⊢
  rw [if_neg hc]

/-- Invariant of the while loop of extract: every accumulated record
carries the fingerprint of its own content and that fingerprint is in
the seen set, the accumulated fingerprints are pairwise distinct, and
the seen set only grows. -/
theorem scanKw_inv (W : Nat) (text textLower kw : List Char) (source author today : String) :
    ∀ (fuel start : Nat) (seen : List String) (acc : List Record),
      (∀ r ∈ acc, r.uniqueId = fingerprint r.content ∧ r.uniqueId ∈ seen) →
      ((acc.map Record.uniqueId).Nodup) →
      ((∀ r ∈ (scanKw W text textLower kw source author today fuel start (seen, acc)).2,
          r.uniqueId = fingerprint r.content ∧
          r.uniqueId ∈ (scanKw W text textLower kw source author today fuel start (seen, acc)).1) ∧
       ((scanKw W text textLower kw source author today fuel start (seen, acc)).2.map
          Record.uniqueId).Nodup ∧
       (∀ h ∈ seen, h ∈ (scanKw W text textLower kw source author today fuel start (seen, acc)).1)) := by
  intro fuel
  induction fuel with
  | zero =>
    intro start seen acc hacc hnodup
    exact ⟨hacc, hnodup, fun h hh => hh⟩
  | succ fuel ih =>
    intro start seen acc hacc hnodup
    cases hf : pyFind textLower kw start with
    | none =>
      rw [scanKw_none W text textLower kw source author today fuel start seen acc hf]
      exact ⟨hacc, hnodup, fun h hh => hh⟩
    | some pos =>
      by_cases hc : seen.contains (fingerprint (occContent W text kw pos)) = true
      · rw [scanKw_seen W text textLower kw source author today fuel start pos seen acc hf hc]
        exact ih (pos + 1) seen acc hacc hnodup
      · rw [scanKw_fresh W text textLower kw source author today fuel start pos seen acc hf hc]
        have hstep := ih (pos + 1) (fingerprint (occContent W text kw pos) :: seen)
          (acc ++ [mkRecord kw (occContent W text kw pos)
            (fingerprint (occContent W text kw pos)) source author today]) ?_ ?_
        · exact ⟨hstep.1, hstep.2.1, fun h hh => hstep.2.2 h (List.mem_cons_of_mem _ hh)⟩
        · intro r hr
          rcases List.mem_append.mp hr with hr1 | hr2
          · obtain ⟨he, hm⟩ := hacc r hr1
            exact ⟨he, List.mem_cons_of_mem _ hm⟩
          · rw [List.mem_singleton] at hr2
            subst hr2
            exact ⟨rfl, List.mem_cons_self _ _⟩
        · rw [List.map_append, List.nodup_append]
          refine ⟨hnodup, List.nodup_singleton _, ?_⟩
          intro x hx
          rw [List.mem_map] at hx
          obtain ⟨r, hr, hxe⟩ := hx
          obtain ⟨_, hm⟩ := hacc r hr
          simp only [List.map_cons, List.map_nil, List.mem_singleton]
          intro hxe2
          apply hc
          have hx3 : x = fingerprint (occContent W text kw pos) := hxe2
          have hmem : fingerprint (occContent W text kw pos) ∈ seen := by
            rw [← hx3, ← hxe]
            exact hm
          exact List.elem_eq_true_of_mem hmem

/-- The loop invariant carried through the keyword loop of extract. -/
theorem foldl_scan_inv (W : Nat) (text textLower : List Char) (source author today : String) :
    ∀ (kws : List (List Char)) (seen : List String) (acc : List Record),
      (∀ r ∈ acc, r.uniqueId = fingerprint r.content ∧ r.uniqueId ∈ seen) →
      (acc.map Record.uniqueId).Nodup →
      (∀ r ∈ (kws.foldl (fun st kw =>
            scanKw W text textLower kw source author today (textLower.length + 1) 0 st)
          (seen, acc)).2,
        r.uniqueId = fingerprint r.content ∧
          r.uniqueId ∈ (kws.foldl (fun st kw =>
            scanKw W text textLower kw source author today (textLower.length + 1) 0 st)
          (seen, acc)).1) ∧
      ((kws.foldl (fun st kw =>
            scanKw W text textLower kw source author today (textLower.length + 1) 0 st)
          (seen, acc)).2.map Record.uniqueId).Nodup := by
  intro kws
  induction kws with
  | nil => intro seen acc hacc hnodup; exact ⟨hacc, hnodup⟩
  | cons kw kws ih =>
    intro seen acc hacc hnodup
    have hstep := scanKw_inv W text textLower kw source author today
      (textLower.length + 1) 0 seen acc hacc hnodup
    exact ih (scanKw W text textLower kw source author today
        (textLower.length + 1) 0 (seen, acc)).1
      (scanKw W text textLower kw source author today (textLower.length + 1) 0 (seen, acc)).2
      hstep.1 hstep.2.1

/-- Every emitted record carries the fingerprint of its own content,
and the emitted fingerprints are pairwise distinct. -/
theorem extract_fingerprints (ex : ContentExtractor) (text : List Char)
    (source author today : String) :
    (∀ r ∈ ex.extract text source author today, r.uniqueId = fingerprint r.content) ∧
    ((ex.extract text source author today).map Record.uniqueId).Nodup := by
  have h := foldl_scan_inv ex.context_chars text (text.map Char.toLower) source author today
    ex.keywords [] [] (by simp) (by simp)
  exact ⟨fun r hr => (h.1 r hr).1, h.2⟩

/-- The while loop emits the same seen set and the same fingerprint
sequence whatever the provenance strings and date are. -/
theorem scanKw_congr (W : Nat) (text textLower kw : List Char)
    (s1 a1 t1 s2 a2 t2 : String) :
    ∀ (fuel start : Nat) (seen : List String) (acc1 acc2 : List Record),
      acc1.map Record.uniqueId = acc2.map Record.uniqueId →
      (scanKw W text textLower kw s1 a1 t1 fuel start (seen, acc1)).1 =
        (scanKw W text textLower kw s2 a2 t2 fuel start (seen, acc2)).1 ∧
      (scanKw W text textLower kw s1 a1 t1 fuel start (seen, acc1)).2.map Record.uniqueId =
        (scanKw W text textLower kw s2 a2 t2 fuel start (seen, acc2)).2.map Record.uniqueId := by
  intro fuel
  induction fuel with
  | zero => intro start seen acc1 acc2 hm; exact ⟨rfl, hm⟩
  | succ fuel ih =>
    intro start seen acc1 acc2 hm
    cases hf : pyFind textLower kw start with
    | none =>
      rw [scanKw_none W text textLower kw s1 a1 t1 fuel start seen acc1 hf,
        scanKw_none W text textLower kw s2 a2 t2 fuel start seen acc2 hf]
      exact ⟨rfl, hm⟩
    | some pos =>
      by_cases hc : seen.contains (fingerprint (occContent W text kw pos)) = true
      · rw [scanKw_seen W text textLower kw s1 a1 t1 fuel start pos seen acc1 hf hc,
          scanKw_seen W text textLower kw s2 a2 t2 fuel start pos seen acc2 hf hc]
        exact ih (pos + 1) seen acc1 acc2 hm
      · rw [scanKw_fresh W text textLower kw s1 a1 t1 fuel start pos seen acc1 hf hc,
          scanKw_fresh W text textLower kw s2 a2 t2 fuel start pos seen acc2 hf hc]
        refine ih (pos + 1) _ _ _ ?_
        rw [List.map_append, List.map_append, hm]
        rfl

/-- The keyword loop emits the same fingerprint sequence whatever the
provenance strings and date are. -/
theorem foldl_scan_congr (W : Nat) (text textLower : List Char)
    (s1 a1 t1 s2 a2 t2 : String) :
    ∀ (kws : List (List Char)) (seen : List String) (acc1 acc2 : List Record),
      acc1.map Record.uniqueId = acc2.map Record.uniqueId →
      (kws.foldl (fun st kw =>
          scanKw W text textLower kw s1 a1 t1 (textLower.length + 1) 0 st) (seen, acc1)).1 =
        (kws.foldl (fun st kw =>
          scanKw W text textLower kw s2 a2 t2 (textLower.length + 1) 0 st) (seen, acc2)).1 ∧
      (kws.foldl (fun st kw =>
          scanKw W text textLower kw s1 a1 t1 (textLower.length + 1) 0 st)
        (seen, acc1)).2.map Record.uniqueId =
        (kws.foldl (fun st kw =>
          scanKw W text textLower kw s2 a2 t2 (textLower.length + 1) 0 st)
        (seen, acc2)).2.map Record.uniqueId := by
  intro kws
  induction kws with
  | nil => intro seen acc1 acc2 hm; exact ⟨rfl, hm⟩
  | cons kw kws ih =>
    intro seen acc1 acc2 hm
    have hstep := scanKw_congr W text textLower kw s1 a1 t1 s2 a2 t2
      (textLower.length + 1) 0 seen acc1 acc2 hm
    have h2 := ih (scanKw W text textLower kw s1 a1 t1 (textLower.length + 1) 0 (seen, acc1)).1
      (scanKw W text textLower kw s1 a1 t1 (textLower.length + 1) 0 (seen, acc1)).2
      (scanKw W text textLower kw s2 a2 t2 (textLower.length + 1) 0 (seen, acc2)).2
      hstep.2
    have hpair : (((scanKw W text textLower kw s1 a1 t1 (textLower.length + 1) 0 (seen, acc1)).1,
        (scanKw W text textLower kw s2 a2 t2 (textLower.length + 1) 0 (seen, acc2)).2) :
          List String × List Record) =
        scanKw W text textLower kw s2 a2 t2 (textLower.length + 1) 0 (seen, acc2) := by
      rw [hstep.1]
    rw [hpair] at h2
    exact h2

/-- Distinct fingerprints force distinct contents (the fingerprint is
a function of the content). -/
theorem pairwise_content_ne :
    ∀ (l : List Record),
      (∀ r ∈ l, r.uniqueId = fingerprint r.content) →
      (l.map Record.uniqueId).Nodup →
      List.Pairwise (fun r1 r2 => r1.content ≠ r2.content) l := by
  intro l
  induction l with
  | nil => intro _ _; exact List.Pairwise.nil
  | cons r t ih =>
    intro hf hn
    rw [List.map_cons, List.nodup_cons] at hn
    refine List.Pairwise.cons ?_ (ih (fun x hx => hf x (List.mem_cons_of_mem _ hx)) hn.2)
    intro r2 hr2 hceq
    apply hn.1
    have h1 := hf r (List.mem_cons_self _ _)
    have h2 := hf r2 (List.mem_cons_of_mem _ hr2)
    rw [List.mem_map]
    exact ⟨r2, hr2, by rw [h2, ← hceq, ← h1]⟩

/-! ### Claim C9 -/

/-- Claim C9: the unique id of every emitted record is the fingerprint
of its cleaned content (a pure function of the content); within one
extract call no two emitted records share a fingerprint; and the
fingerprint sequence of an extract call does not depend on the
provenance strings or the date, so identical text and keywords always
yield identical fingerprint sets. -/
theorem c9_fingerprint_discipline (ex : ContentExtractor) (text : List Char)
    (s1 a1 t1 s2 a2 t2 : String) :
    (∀ r ∈ ex.extract text s1 a1 t1, r.uniqueId = fingerprint r.content) ∧
    ((ex.extract text s1 a1 t1).map Record.uniqueId).Nodup ∧
    (ex.extract text s1 a1 t1).map Record.uniqueId =
      (ex.extract text s2 a2 t2).map Record.uniqueId := by
  refine ⟨(extract_fingerprints ex text s1 a1 t1).1,
    (extract_fingerprints ex text s1 a1 t1).2, ?_⟩
  exact (foldl_scan_congr ex.context_chars text (text.map Char.toLower)
    s1 a1 t1 s2 a2 t2 ex.keywords [] [] [] rfl).2

/-- Witness for claim C9: on the scenario text the fingerprint
sequence is unchanged when source, author and date all change. -/
theorem c9_fingerprint_discipline_witness :
    ((ContentExtractor.make ["cat"] 5).extract "The cat sat. The cat ran.".toList
        "s" "a" "2026-01-01").map Record.uniqueId =
      ((ContentExtractor.make ["cat"] 5).extract "The cat sat. The cat ran.".toList
        "other" "person" "2026-02-02").map Record.uniqueId :=
  (c9_fingerprint_discipline (ContentExtractor.make ["cat"] 5)
    "The cat sat. The cat ran.".toList "s" "a" "2026-01-01"
    "other" "person" "2026-02-02").2.2

/-! ### Claim C10 -/

/-- Beyond the bound textLower.length + 1 - start, the amount of fuel
does not matter: the while loop has reached its final value, which is
the termination argument for the source loop. -/
theorem scanKw_fuel_stable (W : Nat) (text textLower kw : List Char)
    (source author today : String) :
    ∀ (fuel start : Nat) (st : List String × List Record),
      textLower.length + 1 - start ≤ fuel →
      scanKw W text textLower kw source author today fuel start st =
        scanKw W text textLower kw source author today
          (textLower.length + 1 - start) start st := by
  intro fuel
  induction fuel using Nat.strong_induction_on with
  | _ fuel ih =>
    intro start st hfuel
    by_cases hs : textLower.length < start
    · have hb : textLower.length + 1 - start = 0 := by omega
      rw [hb]
      cases fuel with
      | zero => rfl
      | succ f =>
        obtain ⟨seen, acc⟩ := st
        rw [scanKw_none W text textLower kw source author today f start seen acc
          (pyFind_none _ _ _ hs)]
        rfl
    · push_neg at hs
      have hb : textLower.length + 1 - start = (textLower.length - start) + 1 := by omega
      cases fuel with
      | zero => omega
      | succ f =>
        obtain ⟨seen, acc⟩ := st
        rw [hb]
        cases hf : pyFind textLower kw start with
        | none =>
          rw [scanKw_none W text textLower kw source author today f start seen acc hf,
            scanKw_none W text textLower kw source author today
              (textLower.length - start) start seen acc hf]
        | some pos =>
          obtain ⟨hsp, hpl⟩ := pyFind_le textLower kw start pos hf
          by_cases hc : seen.contains (fingerprint (occContent W text kw pos)) = true
          · rw [scanKw_seen W text textLower kw source author today f start pos seen acc hf hc,
              scanKw_seen W text textLower kw source author today
                (textLower.length - start) start pos seen acc hf hc]
            have h1 := ih f (by omega) (pos + 1) (seen, acc) (by omega)
            have h2 := ih (textLower.length - start) (by omega) (pos + 1) (seen, acc) (by omega)
            rw [h1, h2]
          · rw [scanKw_fresh W text textLower kw source author today f start pos seen acc hf hc,
              scanKw_fresh W text textLower kw source author today
                (textLower.length - start) start pos seen acc hf hc]
            have h1 := ih f (by omega) (pos + 1)
              (fingerprint (occContent W text kw pos) :: seen,
               acc ++ [mkRecord kw (occContent W text kw pos)
                 (fingerprint (occContent W text kw pos)) source author today]) (by omega)
            have h2 := ih (textLower.length - start) (by omega) (pos + 1)
              (fingerprint (occContent W text kw pos) :: seen,
               acc ++ [mkRecord kw (occContent W text kw pos)
                 (fingerprint (occContent W text kw pos)) source author today]) (by omega)
            rw [h1, h2]

/-- Claim C10: termination of extract.  Any occurrence is found at or
after the resume index, so the resume index strictly increases each
iteration; once the resume index passes the text length the search
reports no match; the while loop reaches a fixed final value within
textLower.length + 1 - start iterations (more fuel changes nothing,
which is exactly termination of the unbounded source loop); and with
the empty-string keyword, which matches at every index, the run is
still finite and emits at most one record per distinct cleaned window
(no two emitted records share a content). -/
theorem c10_termination :
    (∀ (textLower kw : List Char) (start pos : Nat),
      pyFind textLower kw start = some pos → start ≤ pos ∧ start < pos + 1) ∧
    (∀ (textLower kw : List Char) (start : Nat),
      textLower.length < start → pyFind textLower kw start = none) ∧
    (∀ (W : Nat) (text textLower kw : List Char) (source author today : String)
      (fuel start : Nat) (st : List String × List Record),
      textLower.length + 1 - start ≤ fuel →
      scanKw W text textLower kw source author today fuel start st =
        scanKw W text textLower kw source author today
          (textLower.length + 1 - start) start st) ∧
    (∀ (text : List Char) (source author today : String),
      List.Pairwise (fun r1 r2 => r1.content ≠ r2.content)
        ((ContentExtractor.make [""] 200).extract text source author today)) := by
  refine ⟨?_, ?_, ?_, ?_⟩
  · intro tl kw start pos hf
    have h := (pyFind_le tl kw start pos hf).1
    exact ⟨h, by omega⟩
  · intro tl kw start hs
    exact pyFind_none tl kw start hs
  · intro W text tl kw s a t fuel start st hfuel
    exact scanKw_fuel_stable W text tl kw s a t fuel start st hfuel
  · intro text s a t
    exact pairwise_content_ne _ (extract_fingerprints _ _ _ _ _).1
      (extract_fingerprints _ _ _ _ _).2

/-- Witness for claim C10: with the empty keyword on a 2-character
text, fuel 5 and the exact bound 3 give the same final state. -/
theorem c10_termination_witness :
    ("ab".toList.length + 1 - 0 ≤ 5) ∧
    scanKw 200 "ab".toList "ab".toList [] "s" "a" "d" 5 0 ([], []) =
      scanKw 200 "ab".toList "ab".toList [] "s" "a" "d"
        ("ab".toList.length + 1 - 0) 0 ([], []) :=
  ⟨by decide, c10_termination.2.2.1 200 "ab".toList "ab".toList [] "s" "a" "d"
    5 0 ([], []) (by decide)⟩

/-! ### Helper lemmas about process_document -/

/-- On a permitted-false budget check the pipeline stops: the returned
dictionary carries the budget message and zero counts, the monitor
keeps the charged usage, the only alerts are the start alert and the
forwarded budget alert, and nothing is appended. -/
theorem process_document_budget_stop (fileName : String) (text : List Char)
    (encoder : Option (List Char → Nat)) (keywords : List String)
    (source author today : String) (existing : List String) (sheetId : String)
    (m : TokenMonitor) (msg : String)
    (hstep : (m.add_usage ((estimate_tokens encoder text : Nat) : Int)).2 = some (false, msg))
    (hne : msg ≠ "") :
    process_document fileName (Except.ok text) encoder keywords source author today
        existing sheetId m =
      some ⟨⟨false, 0, 0, ((estimate_tokens encoder text : Nat) : Int), msg⟩,
        { m with tokens_used := m.tokens_used + ((estimate_tokens encoder text : Nat) : Int) },
        [startAlert fileName keywords, Alert.tokenAlert msg], []⟩ := by
  unfold process_document
  dsimp only
  rw [hstep]
  dsimp only
  rw [if_neg hne]
  simp only [Bool.false_eq_true, if_false]
  rfl

/-- Whenever the budget check returns rather than raises, the whole
call returns a result rather than propagating an exception. -/
theorem process_document_some (fileName : String) (text : List Char)
    (encoder : Option (List Char → Nat)) (keywords : List String)
    (source author today : String) (existing : List String) (sheetId : String)
    (m : TokenMonitor) (ok : Bool) (msg : String)
    (hstep : (m.add_usage ((estimate_tokens encoder text : Nat) : Int)).2 = some (ok, msg)) :
    (process_document fileName (Except.ok text) encoder keywords source author today
      existing sheetId m).isSome = true := by
  unfold process_document
  dsimp only
  rw [hstep]
  dsimp only
  cases ok
  · simp only [Bool.false_eq_true, if_false]
    rfl
  · simp only [if_true]
    rfl

/-- On a permitted-true budget check with a non-empty warning, the run
proceeds but the warning alert has been forwarded, and the monitor
keeps the charged usage. -/
theorem process_document_warn_forward (fileName : String) (text : List Char)
    (encoder : Option (List Char → Nat)) (keywords : List String)
    (source author today : String) (existing : List String) (sheetId : String)
    (m : TokenMonitor) (msg : String)
    (hstep : (m.add_usage ((estimate_tokens encoder text : Nat) : Int)).2 = some (true, msg))
    (hne : msg ≠ "") :
    ∀ po : ProcOutput,
      process_document fileName (Except.ok text) encoder keywords source author today
          existing sheetId m = some po →
      Alert.tokenAlert msg ∈ po.alerts ∧
      po.monitor.tokens_used = m.tokens_used +
        ((estimate_tokens encoder text : Nat) : Int) := by
  intro po hpo
  unfold process_document at hpo
  dsimp only at hpo
  rw [hstep] at hpo
  dsimp only at hpo
  rw [if_neg hne] at hpo
  simp only [if_true] at hpo
  injection hpo with h2
  subst h2
  constructor
  · exact List.mem_append_left _ (by simp)
  · rfl

/-- A permitted-false return always carries the budget-exceeded
message. -/
theorem add_usage_false_msg (m : TokenMonitor) (t : Int) (msg : String)
    (h : (m.add_usage t).2 = some (false, msg)) :
    msg = exceededMsg (m.tokens_used + t) m.max_budget := by
  by_cases hb : m.max_budget = 0
  · rw [add_usage_raises m t hb] at h
    exact absurd h (by simp)
  · rw [add_usage_snd m t hb] at h
    split_ifs at h with h1 h2
    · have h3 : exceededMsg (m.tokens_used + t) m.max_budget = msg := by
        simpa using h
      exact h3.symm
    · simp at h
    · simp at h

/-! ### Claim C5 -/

/-- Claim C5: once parsing succeeds and add_usage returns on the
estimated cost of the parsed text: the call returns a result; any
non-empty budget message (warning or exceeded) is forwarded to the
notification sink whether or not the run proceeds, with the usage
remaining charged on the tracker; and when permitted is false the
pipeline stops before extraction or appending — the returned summary
carries the exceeded message with zero entries found and zero entries
added, nothing is appended to the store, and the only alerts sent are
the start alert and the forwarded budget alert. -/
theorem c5_budget_gate (fileName : String) (text : List Char)
    (encoder : Option (List Char → Nat)) (keywords : List String)
    (source author today : String) (existing : List String) (sheetId : String)
    (m : TokenMonitor) (ok : Bool) (msg : String)
    (hstep : (m.add_usage ((estimate_tokens encoder text : Nat) : Int)).2 = some (ok, msg)) :
    ((process_document fileName (Except.ok text) encoder keywords source author today
      existing sheetId m).isSome = true) ∧
    (msg ≠ "" → ∀ po : ProcOutput,
      process_document fileName (Except.ok text) encoder keywords source author today
          existing sheetId m = some po →
      Alert.tokenAlert msg ∈ po.alerts ∧
      po.monitor.tokens_used = m.tokens_used +
        ((estimate_tokens encoder text : Nat) : Int)) ∧
    (ok = false →
      process_document fileName (Except.ok text) encoder keywords source author today
          existing sheetId m =
        some ⟨⟨false, 0, 0, ((estimate_tokens encoder text : Nat) : Int), msg⟩,
          { m with tokens_used := m.tokens_used +
            ((estimate_tokens encoder text : Nat) : Int) },
          [startAlert fileName keywords, Alert.tokenAlert msg], []⟩) := by
  refine ⟨process_document_some fileName text encoder keywords source author today existing
    sheetId m ok msg hstep, ?_, ?_⟩
  · intro hne po hpo
    cases ok with
    | true =>
      exact process_document_warn_forward fileName text encoder keywords source author today
        existing sheetId m msg hstep hne po hpo
    | false =>
      rw [process_document_budget_stop fileName text encoder keywords source author today
        existing sheetId m msg hstep hne] at hpo
      injection hpo with h2
      subst h2
      exact ⟨by simp, rfl⟩
  · intro hok
    subst hok
    have hne : msg ≠ "" := by
      rw [add_usage_false_msg m _ msg hstep]
      exact exceededMsg_ne_empty _ _
    exact process_document_budget_stop fileName text encoder keywords source author today
      existing sheetId m msg hstep hne

/-- Witness for claim C5: a 4-character text with the fallback
estimator costs 2 tokens against a ceiling of 2, so the run aborts
with the exceeded message, charging the usage and sending exactly the
start alert and the budget alert. -/
theorem c5_budget_gate_witness :
    ((⟨2, 4/5, 0⟩ : TokenMonitor).add_usage
        ((estimate_tokens none "aaaa".toList : Nat) : Int)).2 =
      some (false, exceededMsg 2 2) ∧
    process_document "doc.txt" (Except.ok "aaaa".toList) none ["kw"] "" "" "2026-01-01"
        [] "sheet" ⟨2, 4/5, 0⟩ =
      some ⟨⟨false, 0, 0, ((estimate_tokens none "aaaa".toList : Nat) : Int),
          exceededMsg 2 2⟩,
        { (⟨2, 4/5, 0⟩ : TokenMonitor) with
            tokens_used := 0 + ((estimate_tokens none "aaaa".toList : Nat) : Int) },
        [startAlert "doc.txt" ["kw"], Alert.tokenAlert (exceededMsg 2 2)], []⟩ := by
  have hcast : ((estimate_tokens none "aaaa".toList : Nat) : Int) = 2 := by decide
  have hstep : ((⟨2, 4/5, 0⟩ : TokenMonitor).add_usage
      ((estimate_tokens none "aaaa".toList : Nat) : Int)).2 =
      some (false, exceededMsg 2 2) := by
    rw [hcast]
    have h := add_usage_exceeded ⟨2, 4/5, 0⟩ 2 (by norm_num) (by norm_num)
    simpa using h
  exact ⟨hstep, (c5_budget_gate "doc.txt" "aaaa".toList none ["kw"] "" "" "2026-01-01"
    [] "sheet" ⟨2, 4/5, 0⟩ false (exceededMsg 2 2) hstep).2.2 rfl⟩
